import Mathlib

/-!
# Verification of `hardhat.config.js`

The repository is one JavaScript module whose only effect of interest is the
value it assigns to `module.exports`: an object literal holding the Solidity
compiler settings and two network endpoints.  The two leading `require(...)`
statements load external plugins and contribute nothing to the exported value;
the `//` lines inside the literal are comments and contribute no property.

The object literal is embedded as a value of `JsValue`, property by property
and in source order.  All accessors below are functions on `JsValue`.
-/

namespace HardhatConfig

/-- A JavaScript value as it occurs in the object literal of
`hardhat.config.js`: string literals, numeric literals (every numeric literal
of the file is an integer literal), booleans, and object literals given as the
written sequence of `key: value` property definitions. -/
inductive JsValue where
  | str (s : String)
  | num (n : Int)
  | bool (b : Bool)
  | obj (fields : List (String × JsValue))

namespace JsValue

/-- The written property definitions of an object literal (empty for a value
that is not an object). -/
def fields : JsValue → List (String × JsValue)
  | obj fs => fs
  | _ => []

/-- The property names of an object literal, as written and in source order. -/
def keys (v : JsValue) : List String :=
  v.fields.map Prod.fst

/-- Own-property read `v[name]`.  When an object literal defines a name more
than once JavaScript keeps the last definition, hence the search from the
end. -/
def getProp (v : JsValue) (name : String) : Option JsValue :=
  v.fields.reverse.lookup name

/-- Read along a path of property names: `v.a.b.c`. -/
def getPath : JsValue → List String → Option JsValue
  | v, [] => some v
  | v, k :: ks => match v.getProp k with
    | some w => getPath w ks
    | none => none

/-- The string held by a string value. -/
def asStr : JsValue → Option String
  | str s => some s
  | _ => none

/-- The number held by a numeric value. -/
def asNum : JsValue → Option Int
  | num n => some n
  | _ => none

/-- The boolean held by a boolean value. -/
def asBool : JsValue → Option Bool
  | bool b => some b
  | _ => none

end JsValue

open JsValue

/-- The value assigned to `module.exports` in `hardhat.config.js`
(lines 5 to 30). -/
def moduleExports : JsValue :=
  obj [
    ("solidity", obj [
      ("version", str "0.8.22"),
      ("settings", obj [
        ("optimizer", obj [
          ("enabled", bool true),
          ("runs", num 200)])])]),
    ("networks", obj [
      ("bscTestnet", obj [
        ("url", str "https://data-seed-prebsc-1-s1.binance.org:8545"),
        ("chainId", num 97)]),
      ("bsc", obj [
        ("url", str "https://bsc-dataseed.binance.org/"),
        ("chainId", num 56)])])]

/-- The written entries of `config.networks`: name and endpoint record. -/
def networkEntries (config : JsValue) : List (String × JsValue) :=
  match config.getProp "networks" with
  | some nets => nets.fields
  | none => []

/-- The network names of `config.networks`, as written. -/
def networkNames (config : JsValue) : List String :=
  (networkEntries config).map Prod.fst

/-- The error taxonomy of section 7 of the specification. -/
inductive ConfigError where
  | MalformedConfiguration
  | DuplicateNetworkName
  | UnknownNetwork
  | MissingCredentials
deriving DecidableEq, Repr

/-- Modelled from the spec: the operation `resolveNetwork(config, name)` of
section 4.1, which the repository does not implement.  It returns the endpoint
stored under `name` in `config.networks` and fails with `UnknownNetwork` when
`name` is not a key of `networks`. -/
def resolveNetwork (config : JsValue) (name : String) : Except ConfigError JsValue :=
  match (networkEntries config).reverse.lookup name with
  | some endpoint => .ok endpoint
  | none => .error .UnknownNetwork

/-- The `url` of an endpoint record, when it is a string. -/
def urlOf (endpoint : JsValue) : Option String :=
  match endpoint.getProp "url" with
  | some v => v.asStr
  | none => none

/-- The `chainId` of an endpoint record, when it is a number. -/
def chainIdOf (endpoint : JsValue) : Option Int :=
  match endpoint.getProp "chainId" with
  | some v => v.asNum
  | none => none

/-- The compiler version, read at `config.solidity.version`. -/
def compilerVersion (config : JsValue) : Option String :=
  match config.getPath ["solidity", "version"] with
  | some v => v.asStr
  | none => none

/-- The optimizer record, read at `config.solidity.settings.optimizer`. -/
def optimizer (config : JsValue) : Option JsValue :=
  config.getPath ["solidity", "settings", "optimizer"]

/-! ### Shape predicates on strings -/

/-- Split a character sequence at every occurrence of `sep`; the pieces are
the maximal runs between separators, so `n` separators give `n + 1` pieces. -/
def splitOnChar (sep : Char) : List Char → List (List Char)
  | [] => [[]]
  | c :: cs =>
    if c = sep then [] :: splitOnChar sep cs
    else match splitOnChar sep cs with
      | [] => [[c]]
      | piece :: pieces => (c :: piece) :: pieces

/-- Concatenate pieces, writing `sep` between consecutive pieces. -/
def joinWith (sep : Char) : List (List Char) → List Char
  | [] => []
  | [piece] => piece
  | piece :: next :: pieces => piece ++ sep :: joinWith sep (next :: pieces)

/-- A non-empty run of decimal digits. -/
def isDigitRun (l : List Char) : Bool :=
  !l.isEmpty && l.all Char.isDigit

/-- The pattern `major.minor.patch`: exactly three non-empty runs of decimal
digits separated by two dots. -/
def isMajorMinorPatch (v : String) : Bool :=
  match splitOnChar '.' v.toList with
  | [major, minor, patch] => isDigitRun major && isDigitRun minor && isDigitRun patch
  | _ => false

/-- The parts of an absolute HTTP or HTTPS URL. -/
structure HttpUrl where
  scheme : String
  host : String
  port : Option String
  path : String
deriving DecidableEq, Repr

/-- Characters admitted in a host name: letters, digits, hyphen and dot. -/
def isHostChar (c : Char) : Bool :=
  c.isAlphanum || c == '-' || c == '.'

/-- Characters admitted in a path: visible ASCII. -/
def isPathChar (c : Char) : Bool :=
  decide (33 ≤ c.toNat) && decide (c.toNat ≤ 126)

/-- A path is empty or starts with a slash and consists of path characters. -/
def isPath (l : List Char) : Bool :=
  match l with
  | [] => true
  | c :: _ => c == '/' && l.all isPathChar

/-- Remove the prefix `pre` from `l`, when `l` starts with it. -/
def stripLeading : List Char → List Char → Option (List Char)
  | [], l => some l
  | _ :: _, [] => none
  | a :: pre, b :: l => if a = b then stripLeading pre l else none

/-- Parse what follows `scheme://`: a non-empty host, then an optional `:port`
with a non-empty run of digits, then an optional path. -/
def parseAfterScheme (scheme : String) (rest : List Char) : Option HttpUrl :=
  let host := rest.takeWhile isHostChar
  if host.isEmpty then none
  else match rest.dropWhile isHostChar with
    | ':' :: afterColon =>
      let digits := afterColon.takeWhile Char.isDigit
      let path := afterColon.dropWhile Char.isDigit
      if !digits.isEmpty && isPath path then
        some ⟨scheme, String.mk host, some (String.mk digits), String.mk path⟩
      else none
    | path =>
      if isPath path then some ⟨scheme, String.mk host, none, String.mk path⟩
      else none

/-- Parse an absolute URL whose scheme is `http` or `https`. -/
def parseHttpUrl (u : String) : Option HttpUrl :=
  match stripLeading "https://".toList u.toList with
  | some rest => parseAfterScheme "https" rest
  | none =>
    match stripLeading "http://".toList u.toList with
    | some rest => parseAfterScheme "http" rest
    | none => none

/-- The text a parsed URL stands for: `scheme://host[:port][path]`. -/
def HttpUrl.render (p : HttpUrl) : List Char :=
  p.scheme.toList ++ "://".toList ++ p.host.toList ++
    (match p.port with
      | some digits => ':' :: digits.toList
      | none => []) ++ p.path.toList

/-- The layout of section 6 of the specification, as a check on a
configuration value: a top-level `compilerVersion` holding a string, a
top-level `optimizer` holding a record with exactly the fields `enabled` and
`runs`, and a top-level `networks` whose entries are records with exactly the
fields `url` and `chainId`. -/
def hasSpecLayout (config : JsValue) : Bool :=
  (match config.getProp "compilerVersion" with
    | some (str _) => true
    | _ => false) &&
  (match config.getProp "optimizer" with
    | some o => decide (o.keys = ["enabled", "runs"])
    | none => false) &&
  (match config.getProp "networks" with
    | some nets => nets.fields.all (fun e => decide (e.2.keys = ["url", "chainId"]))
    | none => false)

mutual
/-- Every property name occurring anywhere inside a value. -/
def allKeys : JsValue → List String
  | obj fs => allKeysList fs
  | _ => []
/-- Every property name occurring anywhere inside a sequence of properties. -/
def allKeysList : List (String × JsValue) → List String
  | [] => []
  | (k, v) :: rest => k :: (allKeys v ++ allKeysList rest)
end

mutual
/-- Every string literal held anywhere inside a value. -/
def allStrings : JsValue → List String
  | str s => [s]
  | obj fs => allStringsList fs
  | _ => []
/-- Every string literal held anywhere inside a sequence of properties. -/
def allStringsList : List (String × JsValue) → List String
  | [] => []
  | (_, v) :: rest => allStrings v ++ allStringsList rest
end

/-! ### Auxiliary facts -/

/-- The network entries of the exported configuration, as written in the
source. -/
theorem networkEntries_moduleExports :
    networkEntries moduleExports =
      [("bscTestnet", obj [
          ("url", str "https://data-seed-prebsc-1-s1.binance.org:8545"),
          ("chainId", num 97)]),
       ("bsc", obj [
          ("url", str "https://bsc-dataseed.binance.org/"),
          ("chainId", num 56)])] := rfl

/-- A name that is not among the written network names resolves to
`UnknownNetwork`, for every configuration. -/
theorem resolveNetwork_error_of_not_mem (config : JsValue) (name : String)
    (h : name ∉ networkNames config) :
    resolveNetwork config name = .error .UnknownNetwork := by
  have hnone : (networkEntries config).reverse.lookup name = none := by
    rw [List.lookup_eq_none_iff]
    intro e he
    have hmem : e ∈ networkEntries config := List.mem_reverse.mp he
    have hk : e.1 ∈ networkNames config := List.mem_map_of_mem Prod.fst hmem
    have hne : name ≠ e.1 := fun heq => h (heq ▸ hk)
    simpa using hne
  simp [resolveNetwork, hnone]

/-- A name that resolves is one of the written network names, and the endpoint
returned is stored under it. -/
theorem mem_of_resolveNetwork_ok (config : JsValue) (name : String) (endpoint : JsValue)
    (h : resolveNetwork config name = .ok endpoint) :
    (name, endpoint) ∈ networkEntries config := by
  unfold resolveNetwork at h
  split at h
  · rename_i ep hlook
    cases h
    rw [List.lookup_eq_some_iff] at hlook
    obtain ⟨l₁, l₂, hl, -⟩ := hlook
    apply List.mem_reverse.mp
    rw [hl]
    simp
  · cases h

/-- Splitting never yields an empty sequence of pieces. -/
theorem splitOnChar_ne_nil (sep : Char) (l : List Char) : splitOnChar sep l ≠ [] := by
  cases l with
  | nil => simp [splitOnChar]
  | cons c cs =>
    unfold splitOnChar
    split
    · simp
    · split <;> simp

/-- Joining the pieces of a split with the separator gives the sequence back. -/
theorem joinWith_splitOnChar (sep : Char) (l : List Char) :
    joinWith sep (splitOnChar sep l) = l := by
  induction l with
  | nil => rfl
  | cons c cs ih =>
    unfold splitOnChar
    split
    · rename_i hc
      cases hs : splitOnChar sep cs with
      | nil => exact absurd hs (splitOnChar_ne_nil sep cs)
      | cons q r =>
        rw [hs] at ih
        simp [joinWith, ih, hc]
    · cases hs : splitOnChar sep cs with
      | nil => exact absurd hs (splitOnChar_ne_nil sep cs)
      | cons q r =>
        rw [hs] at ih
        cases r with
        | nil =>
          simp only [joinWith] at ih ⊢
          rw [ih]
        | cons q2 r2 =>
          simp only [joinWith] at ih ⊢
          rw [← ih]
          rfl

/-- A sequence free of the separator is a single piece. -/
theorem splitOnChar_of_not_mem (sep : Char) (a : List Char) (h : sep ∉ a) :
    splitOnChar sep a = [a] := by
  induction a with
  | nil => rfl
  | cons c cs ih =>
    have hc : c ≠ sep := fun heq => h (heq ▸ List.mem_cons_self _ _)
    have hcs : sep ∉ cs := fun hm => h (List.mem_cons_of_mem _ hm)
    unfold splitOnChar
    rw [if_neg hc, ih hcs]

/-- A separator after a separator-free run ends the first piece there. -/
theorem splitOnChar_append (sep : Char) (a rest : List Char) (h : sep ∉ a) :
    splitOnChar sep (a ++ sep :: rest) = a :: splitOnChar sep rest := by
  induction a with
  | nil => simp [splitOnChar]
  | cons c cs ih =>
    have hc : c ≠ sep := fun heq => h (heq ▸ List.mem_cons_self _ _)
    have hcs : sep ∉ cs := fun hm => h (List.mem_cons_of_mem _ hm)
    have hstep : splitOnChar sep (c :: (cs ++ sep :: rest)) =
        (match splitOnChar sep (cs ++ sep :: rest) with
          | [] => [[c]]
          | piece :: pieces => (c :: piece) :: pieces) := by
      simp only [splitOnChar, if_neg hc]
    rw [List.cons_append, hstep, ih hcs]

/-- A run of digits contains no dot. -/
theorem dot_not_mem_of_isDigitRun (a : List Char) (h : isDigitRun a = true) : '.' ∉ a := by
  intro hm
  simp only [isDigitRun, Bool.and_eq_true, List.all_eq_true] at h
  have := h.2 '.' hm
  revert this
  decide

/-- The executable check `isMajorMinorPatch` holds exactly for the texts made
of three non-empty runs of decimal digits separated by two dots. -/
theorem isMajorMinorPatch_iff (v : String) :
    isMajorMinorPatch v = true ↔
      ∃ a b c, isDigitRun a = true ∧ isDigitRun b = true ∧ isDigitRun c = true ∧
        v.toList = a ++ '.' :: (b ++ '.' :: c) := by
  constructor
  · intro h
    unfold isMajorMinorPatch at h
    split at h
    · rename_i a b c hs
      simp only [Bool.and_eq_true] at h
      refine ⟨a, b, c, h.1.1, h.1.2, h.2, ?_⟩
      have hj := joinWith_splitOnChar '.' v.toList
      rw [hs] at hj
      simpa [joinWith] using hj.symm
    · cases h
  · rintro ⟨a, b, c, ha, hb, hc, hv⟩
    unfold isMajorMinorPatch
    rw [hv, splitOnChar_append _ _ _ (dot_not_mem_of_isDigitRun a ha),
      splitOnChar_append _ _ _ (dot_not_mem_of_isDigitRun b hb),
      splitOnChar_of_not_mem _ _ (dot_not_mem_of_isDigitRun c hc)]
    simp [ha, hb, hc]

/-- The check `isMajorMinorPatch` rejects texts with too few or too many
parts, with an empty part, or with a part that is not numeric. -/
theorem isMajorMinorPatch_rejects :
    isMajorMinorPatch "" = false ∧ isMajorMinorPatch "0.8" = false ∧
    isMajorMinorPatch "0..22" = false ∧ isMajorMinorPatch "0.8.22.1" = false ∧
    isMajorMinorPatch "0.8.x" = false ∧ isMajorMinorPatch "^0.8.22" = false := by
  decide

/-- A stripped prefix, put back in front, gives the sequence back. -/
theorem stripLeading_eq_some (pre l rest : List Char) (h : stripLeading pre l = some rest) :
    l = pre ++ rest := by
  induction pre generalizing l with
  | nil =>
    simp only [stripLeading, Option.some.injEq] at h
    simp [h]
  | cons a pre ih =>
    cases l with
    | nil => simp [stripLeading] at h
    | cons b l =>
      simp only [stripLeading] at h
      split at h
      · rename_i hab
        rw [hab, ih l h]
        rfl
      · cases h

/-- What `parseAfterScheme` accepts: the scheme is the one given, the host is
a non-empty run of host characters, the port (when present) a non-empty run
of digits, the path empty or slash-led, and the parts spell the input. -/
theorem parseAfterScheme_sound (scheme : String) (rest : List Char) (p : HttpUrl)
    (h : parseAfterScheme scheme rest = some p) :
    p.scheme = scheme ∧ p.host.toList ≠ [] ∧ p.host.toList.all isHostChar = true ∧
    (∀ d, p.port = some d → isDigitRun d.toList = true) ∧
    isPath p.path.toList = true ∧
    rest = p.host.toList ++
      (match p.port with
        | some digits => ':' :: digits.toList
        | none => []) ++ p.path.toList := by
  have hsplit := List.takeWhile_append_dropWhile isHostChar rest
  have hall : (rest.takeWhile isHostChar).all isHostChar = true := by
    rw [List.all_eq_true]
    intro c hc
    exact List.mem_takeWhile_imp hc
  unfold parseAfterScheme at h
  simp only at h
  split at h
  · cases h
  · rename_i hhost
    have hne : rest.takeWhile isHostChar ≠ [] := by
      intro hnil
      rw [hnil] at hhost
      exact hhost rfl
    split at h
    · rename_i afterColon hdrop
      split at h
      · rename_i hok
        simp only [Bool.and_eq_true] at hok
        cases h
        have hsplit2 := List.takeWhile_append_dropWhile Char.isDigit afterColon
        have hdig : (afterColon.takeWhile Char.isDigit).all Char.isDigit = true := by
          rw [List.all_eq_true]
          intro c hc
          exact List.mem_takeWhile_imp hc
        refine ⟨rfl, hne, hall, ?_, hok.2, ?_⟩
        · intro d hd
          cases hd
          simp only [isDigitRun, Bool.and_eq_true]
          exact ⟨hok.1, hdig⟩
        · simp only [String.toList, List.append_assoc, List.cons_append]
          rw [hsplit2, ← hdrop, hsplit]
      · cases h
    · rename_i path hnot
      split at h
      · rename_i hok
        cases h
        refine ⟨rfl, hne, hall, ?_, hok, ?_⟩
        · intro d hd
          cases hd
        · simp only [List.append_nil]
          exact hsplit.symm
      · cases h

/-- What `parseHttpUrl` accepts: the scheme is http or https, the host is
non-empty, and the parsed parts render to the input text. -/
theorem parseHttpUrl_sound (u : String) (p : HttpUrl) (h : parseHttpUrl u = some p) :
    (p.scheme = "http" ∨ p.scheme = "https") ∧ p.host ≠ "" ∧
    p.host.toList.all isHostChar = true ∧
    (∀ d, p.port = some d → isDigitRun d.toList = true) ∧
    isPath p.path.toList = true ∧
    u.toList = p.render := by
  unfold parseHttpUrl at h
  split at h
  · rename_i rest hpre
    obtain ⟨hs, hh, hc, hd, hp, hr⟩ := parseAfterScheme_sound _ _ _ h
    refine ⟨Or.inr hs, ?_, hc, hd, hp, ?_⟩
    · intro he
      rw [he] at hh
      exact hh rfl
    · rw [stripLeading_eq_some _ _ _ hpre, hr, HttpUrl.render, hs]
      simp only [List.append_assoc]
      rfl
  · split at h
    · rename_i rest hpre
      obtain ⟨hs, hh, hc, hd, hp, hr⟩ := parseAfterScheme_sound _ _ _ h
      refine ⟨Or.inl hs, ?_, hc, hd, hp, ?_⟩
      · intro he
        rw [he] at hh
        exact hh rfl
      · rw [stripLeading_eq_some _ _ _ hpre, hr, HttpUrl.render, hs]
        simp only [List.append_assoc]
        rfl
    · cases h

/-- The parser `parseHttpUrl` rejects other schemes, an empty host, an empty
or non-numeric port, and text that is no URL at all. -/
theorem parseHttpUrl_rejects :
    parseHttpUrl "" = none ∧ parseHttpUrl "ftp://bsc-dataseed.binance.org/" = none ∧
    parseHttpUrl "https:///x" = none ∧ parseHttpUrl "https://a:/x" = none ∧
    parseHttpUrl "https://a:80x" = none ∧ parseHttpUrl "bsc-dataseed.binance.org" = none := by
  decide

/-! ### The network endpoints -/

/-- C1: resolving "bsc" in the exported configuration succeeds and returns
exactly the endpoint stored under that key, whose url is
"https://bsc-dataseed.binance.org/" and whose chainId is 56. -/
theorem resolveNetwork_bsc :
    resolveNetwork moduleExports "bsc" =
      .ok (obj [("url", str "https://bsc-dataseed.binance.org/"), ("chainId", num 56)]) ∧
    ∃ endpoint, resolveNetwork moduleExports "bsc" = .ok endpoint ∧
      ("bsc", endpoint) ∈ networkEntries moduleExports ∧
      endpoint.keys = ["url", "chainId"] ∧
      urlOf endpoint = some "https://bsc-dataseed.binance.org/" ∧
      chainIdOf endpoint = some 56 := by
  refine ⟨rfl, _, rfl, ?_, rfl, rfl, rfl⟩
  rw [networkEntries_moduleExports]
  exact List.mem_cons_of_mem _ (List.mem_cons_self _ _)

/-- C2: resolving "bscTestnet" in the exported configuration succeeds and
returns exactly the endpoint stored under that key, whose url is
"https://data-seed-prebsc-1-s1.binance.org:8545" and whose chainId is 97, and
which has no `accounts` field. -/
theorem resolveNetwork_bscTestnet :
    resolveNetwork moduleExports "bscTestnet" =
      .ok (obj [("url", str "https://data-seed-prebsc-1-s1.binance.org:8545"),
                ("chainId", num 97)]) ∧
    ∃ endpoint, resolveNetwork moduleExports "bscTestnet" = .ok endpoint ∧
      ("bscTestnet", endpoint) ∈ networkEntries moduleExports ∧
      endpoint.keys = ["url", "chainId"] ∧
      urlOf endpoint = some "https://data-seed-prebsc-1-s1.binance.org:8545" ∧
      chainIdOf endpoint = some 97 ∧
      endpoint.getProp "accounts" = none := by
  refine ⟨rfl, _, rfl, ?_, rfl, rfl, rfl, rfl⟩
  rw [networkEntries_moduleExports]
  exact List.mem_cons_self _ _

/-- C3: every network entry of the exported configuration consists of the
fields `url` and `chainId` only and has no `accounts` field; the name
`accounts` occurs nowhere in the exported record, whose only string literals
are the compiler version and the two endpoint URLs. -/
theorem no_accounts_field :
    (∀ e ∈ networkEntries moduleExports,
      e.2.keys = ["url", "chainId"] ∧ e.2.getProp "accounts" = none) ∧
    "accounts" ∉ allKeys moduleExports ∧
    allStrings moduleExports =
      ["0.8.22", "https://data-seed-prebsc-1-s1.binance.org:8545",
       "https://bsc-dataseed.binance.org/"] := by
  refine ⟨?_, by decide, rfl⟩
  intro e he
  rw [networkEntries_moduleExports] at he
  simp only [List.mem_cons, List.mem_singleton, List.not_mem_nil, or_false] at he
  rcases he with rfl | rfl <;> exact ⟨rfl, rfl⟩

/-- Witness for C3 at the entry stored under "bsc". -/
theorem no_accounts_field_witness :
    (obj [("url", str "https://bsc-dataseed.binance.org/"), ("chainId", num 56)]).keys
        = ["url", "chainId"] ∧
      (obj [("url", str "https://bsc-dataseed.binance.org/"),
            ("chainId", num 56)]).getProp "accounts" = none :=
  no_accounts_field.1
    ("bsc", obj [("url", str "https://bsc-dataseed.binance.org/"), ("chainId", num 56)])
    (by rw [networkEntries_moduleExports]; exact List.mem_cons_of_mem _ (List.mem_cons_self _ _))

/-- C4: every network entry of the exported configuration has a chainId that
is a positive integer, and two entries with distinct names have distinct
chainIds: bscTestnet has 97 and bsc has 56. -/
theorem chainIds_positive_and_distinct :
    (∀ e ∈ networkEntries moduleExports, ∃ n : Int, chainIdOf e.2 = some n ∧ 0 < n) ∧
    (∀ e₁ ∈ networkEntries moduleExports, ∀ e₂ ∈ networkEntries moduleExports,
      e₁.1 ≠ e₂.1 → chainIdOf e₁.2 ≠ chainIdOf e₂.2) ∧
    (networkEntries moduleExports).map (fun e => (e.1, chainIdOf e.2)) =
      [("bscTestnet", some 97), ("bsc", some 56)] := by
  refine ⟨?_, ?_, rfl⟩
  · intro e he
    rw [networkEntries_moduleExports] at he
    simp only [List.mem_cons, List.mem_singleton, List.not_mem_nil, or_false] at he
    rcases he with rfl | rfl
    · exact ⟨97, rfl, by decide⟩
    · exact ⟨56, rfl, by decide⟩
  · intro e₁ h₁ e₂ h₂ hne
    rw [networkEntries_moduleExports] at h₁ h₂
    simp only [List.mem_cons, List.mem_singleton, List.not_mem_nil, or_false] at h₁ h₂
    rcases h₁ with rfl | rfl <;> rcases h₂ with rfl | rfl
    · exact absurd rfl hne
    · show some (97 : Int) ≠ some 56
      decide
    · show some (56 : Int) ≠ some 97
      decide
    · exact absurd rfl hne

/-- Witness for C4 at the two entries of the exported configuration. -/
theorem chainIds_positive_and_distinct_witness :
    (∃ n : Int, chainIdOf (obj [("url", str "https://bsc-dataseed.binance.org/"),
        ("chainId", num 56)]) = some n ∧ 0 < n) ∧
    chainIdOf (obj [("url", str "https://data-seed-prebsc-1-s1.binance.org:8545"),
        ("chainId", num 97)]) ≠
      chainIdOf (obj [("url", str "https://bsc-dataseed.binance.org/"),
        ("chainId", num 56)]) :=
  ⟨chainIds_positive_and_distinct.1
      ("bsc", obj [("url", str "https://bsc-dataseed.binance.org/"), ("chainId", num 56)])
      (by rw [networkEntries_moduleExports]
          exact List.mem_cons_of_mem _ (List.mem_cons_self _ _)),
   chainIds_positive_and_distinct.2.1
      ("bscTestnet", obj [("url", str "https://data-seed-prebsc-1-s1.binance.org:8545"),
        ("chainId", num 97)])
      (by rw [networkEntries_moduleExports]; exact List.mem_cons_self _ _)
      ("bsc", obj [("url", str "https://bsc-dataseed.binance.org/"), ("chainId", num 56)])
      (by rw [networkEntries_moduleExports]
          exact List.mem_cons_of_mem _ (List.mem_cons_self _ _))
      (by decide)⟩

/-- C5: the exported configuration declares exactly two network endpoints,
stored under the two distinct names "bscTestnet" and "bsc"; no network name
is written twice. -/
theorem two_networks_distinct_names :
    (networkEntries moduleExports).length = 2 ∧
    networkNames moduleExports = ["bscTestnet", "bsc"] ∧
    ("bscTestnet" : String) ≠ "bsc" ∧
    (networkNames moduleExports).Nodup := by
  refine ⟨rfl, rfl, by decide, ?_⟩
  have h : networkNames moduleExports = ["bscTestnet", "bsc"] := rfl
  rw [h]
  decide

/-- C6: a name other than "bscTestnet" and "bsc" is not a key of the exported
configuration's `networks`, and resolving it yields no endpoint:
`resolveNetwork` fails with `UnknownNetwork`. -/
theorem resolveNetwork_unknown (name : String)
    (h : name ≠ "bscTestnet" ∧ name ≠ "bsc") :
    name ∉ networkNames moduleExports ∧
    resolveNetwork moduleExports name = .error .UnknownNetwork := by
  have hn : networkNames moduleExports = ["bscTestnet", "bsc"] := rfl
  have hnot : name ∉ networkNames moduleExports := by
    rw [hn]
    simp only [List.mem_cons, List.mem_singleton, List.not_mem_nil, or_false, not_or]
    exact h
  exact ⟨hnot, resolveNetwork_error_of_not_mem moduleExports name hnot⟩

/-- Witness for C6 at the name "nonexistent". -/
theorem resolveNetwork_unknown_witness :
    "nonexistent" ∉ networkNames moduleExports ∧
    resolveNetwork moduleExports "nonexistent" = .error .UnknownNetwork :=
  resolveNetwork_unknown "nonexistent" ⟨by decide, by decide⟩

/-! ### The compiler settings -/

/-- C7: the compiler version declared by the exported configuration is the
non-empty string "0.8.22", and it matches the pattern major.minor.patch. -/
theorem compilerVersion_is_semver :
    ∃ v, compilerVersion moduleExports = some v ∧ v = "0.8.22" ∧ v ≠ "" ∧
      isMajorMinorPatch v = true ∧
      splitOnChar '.' v.toList = [['0'], ['8'], ['2', '2']] :=
  ⟨"0.8.22", rfl, rfl, by decide, by decide, by decide⟩

/-- C8: the optimizer settings of the exported configuration are the record
with `enabled` = true and `runs` = 200: `enabled` is a boolean, `runs` is a
non-negative integer, and `runs` is present together with `enabled` = true. -/
theorem optimizer_settings :
    ∃ o, optimizer moduleExports = some o ∧
      o = obj [("enabled", bool true), ("runs", num 200)] ∧
      o.keys = ["enabled", "runs"] ∧
      (∃ b, o.getProp "enabled" = some (bool b) ∧ b = true) ∧
      (∃ r, o.getProp "runs" = some (num r) ∧ 0 ≤ r ∧ r = 200) ∧
      ((o.getProp "runs").isSome = true → o.getProp "enabled" = some (bool true)) :=
  ⟨_, rfl, rfl, rfl, ⟨true, rfl, rfl⟩, ⟨200, rfl, by decide, rfl⟩, fun _ => rfl⟩

/-! ### The endpoint URLs -/

/-- C9: every network entry of the exported configuration has a `url` that is
a non-empty string and parses as an absolute URL with scheme http or https,
a non-empty host, an optional numeric port and an optional path, the parsed
parts spelling the whole text. -/
theorem urls_well_formed :
    (∀ e ∈ networkEntries moduleExports, ∃ u p, urlOf e.2 = some u ∧ u ≠ "" ∧
      parseHttpUrl u = some p ∧ (p.scheme = "http" ∨ p.scheme = "https") ∧ p.host ≠ "" ∧
      u.toList = p.render) ∧
    (networkEntries moduleExports).map (fun e => (urlOf e.2).bind parseHttpUrl) =
      [some ⟨"https", "data-seed-prebsc-1-s1.binance.org", some "8545", ""⟩,
       some ⟨"https", "bsc-dataseed.binance.org", none, "/"⟩] := by
  refine ⟨?_, by decide⟩
  intro e he
  rw [networkEntries_moduleExports] at he
  simp only [List.mem_cons, List.mem_singleton, List.not_mem_nil, or_false] at he
  rcases he with rfl | rfl
  · exact ⟨"https://data-seed-prebsc-1-s1.binance.org:8545",
      ⟨"https", "data-seed-prebsc-1-s1.binance.org", some "8545", ""⟩,
      rfl, by decide, by decide, Or.inr rfl, by decide, by decide⟩
  · exact ⟨"https://bsc-dataseed.binance.org/",
      ⟨"https", "bsc-dataseed.binance.org", none, "/"⟩,
      rfl, by decide, by decide, Or.inr rfl, by decide, by decide⟩

/-- Witness for C9 at the entry stored under "bscTestnet". -/
theorem urls_well_formed_witness :
    ∃ u p, urlOf (obj [("url", str "https://data-seed-prebsc-1-s1.binance.org:8545"),
        ("chainId", num 97)]) = some u ∧ u ≠ "" ∧
      parseHttpUrl u = some p ∧ (p.scheme = "http" ∨ p.scheme = "https") ∧ p.host ≠ "" ∧
      u.toList = p.render :=
  urls_well_formed.1
    ("bscTestnet", obj [("url", str "https://data-seed-prebsc-1-s1.binance.org:8545"),
      ("chainId", num 97)])
    (by rw [networkEntries_moduleExports]; exact List.mem_cons_self _ _)

/-! ### The layout of the exported record -/

/-- C10, as stated, fails: the exported record has no top-level field
`compilerVersion` and no top-level field `optimizer`, so it does not have the
layout of section 6 of the specification. -/
theorem spec_layout_fails :
    moduleExports.getProp "compilerVersion" = none ∧
    moduleExports.getProp "optimizer" = none ∧
    hasSpecLayout moduleExports = false :=
  ⟨rfl, rfl, rfl⟩

/-- C10, amended: the exported record has exactly the top-level fields
`solidity` and `networks`; the version string is held at `solidity.version`,
the optimizer record with fields `enabled` and `runs` at
`solidity.settings.optimizer`, and `networks` maps each network name to a
record with fields `url` and `chainId`. -/
theorem exported_layout :
    moduleExports.keys = ["solidity", "networks"] ∧
    (∃ sol, moduleExports.getProp "solidity" = some sol ∧
      sol.keys = ["version", "settings"] ∧
      (∃ v, sol.getProp "version" = some (str v)) ∧
      ∃ settings, sol.getProp "settings" = some settings ∧
        settings.keys = ["optimizer"] ∧
        ∃ o, settings.getProp "optimizer" = some o ∧ o.keys = ["enabled", "runs"]) ∧
    (∃ nets, moduleExports.getProp "networks" = some nets ∧
      nets.keys = ["bscTestnet", "bsc"] ∧
      nets.fields.map (fun e => e.2.keys) = [["url", "chainId"], ["url", "chainId"]]) :=
  ⟨rfl, ⟨_, rfl, rfl, ⟨_, rfl⟩, _, rfl, rfl, _, rfl, rfl⟩, ⟨_, rfl, rfl, rfl⟩⟩

end HardhatConfig
